import Mathlib

/-!
Verification of the `fakechip` audio mixer (package `audio`).

The Go source is shallowly embedded: unsigned 32-bit (`uint32`) values are
natural numbers reduced `% 2^32` at every operation that can wrap, unsigned
16-bit (`uint16`) values are naturals reduced `% 65536`, and signed 32-bit
(`int32`) values are integers renormalised with `wrap32` at every operation
that can overflow.  Go's `/` on `int32` truncates toward zero, which is
`Int.tdiv`; Go's arithmetic right shift `>> 16` on `int32` is floor division
by 65536, which is `Int.ediv` (written `sar16` below).  The float64
note-to-frequency conversion `Note` and the float64 period computation in
`tick` are modelled over the real numbers.

The embedded code is the feature-complete revision of the mixer (the one
with envelope, tremolo/vibrato, dry/wet/feedback delay and the four pairing
modes); the spec declares the earlier field layouts superseded.
-/

namespace Fakechip

/-- Signed 32-bit wraparound: the representative of `x` in `[-2^31, 2^31)`.
Models Go `int32` overflow semantics. -/
def wrap32 (x : ℤ) : ℤ := (x + 2 ^ 31) % 2 ^ 32 - 2 ^ 31

/-- Reinterpret the low 16 bits of an integer as a signed 16-bit value, in
`[-0x8000, 0x8000)`.  Models Go's `int16(x)` conversion (and the implicit
widening `int32(w)` of an `int16` collaborator result `w`, which is the
identity on in-range values). -/
def sw16 (x : ℤ) : ℤ := (x + 2 ^ 15) % 2 ^ 16 - 2 ^ 15

/-- Go's arithmetic right shift `x >> 16` on a signed value: floor division
by 2^16. -/
def sar16 (x : ℤ) : ℤ := x / 2 ^ 16

/-- Go's `uint32(x)` conversion of a signed value: the representative of `x`
modulo 2^32 in `[0, 2^32)`. -/
def toU32 (x : ℤ) : ℕ := (x % 2 ^ 32).toNat

/-- `uint16` subtraction `a - b` (wrapping), for `a` an in-range `uint16`. -/
def sub16 (a b : ℕ) : ℕ := (a + 2 ^ 16 - b % 2 ^ 16) % 2 ^ 16

/-- `func clamp16(a int32) int32` — saturate to the signed 16-bit range. -/
def clamp16 (a : ℤ) : ℤ :=
  if a < -0x8000 then -0x8000
  else if 0x7fff < a then 0x7fff
  else a

/-- The per-oscillator record `Channel` of the mixer, with the fields the
synthesis and tick code reads or writes.  `uint32` fields (`Len`, `Phase`,
`period`, LFO phases/rates) are naturals kept below 2^32 by the operations;
`uint16` fields (`delay`, `FilterLen`, `histHead`) are naturals kept below
65536; `int32` fields are integers.  The 64K history array `hist` is a
function from (uint16) index to stored `int32` value.  The `DelayTicks` /
`DelayNote` request slots are resolved through float64 code that no claim
depends on and are not carried here. -/
structure Channel where
  Wave : ℕ
  PairMode : ℕ
  Note : ℤ
  Slide : ℤ
  Vol : ℤ
  MVol : ℤ
  Fade : ℤ
  Len : ℕ
  Phase : ℕ
  period : ℕ
  DryLevel : ℤ
  WetLevel : ℤ
  Feedback : ℤ
  delay : ℕ
  FilterLen : ℕ
  hist : ℕ → ℤ
  histHead : ℕ
  delayAvg : ℤ
  Attack : ℤ
  Peak : ℤ
  Decay : ℤ
  Sustain : ℤ
  Release : ℤ
  EnvPos : ℤ
  NoteOn : Bool
  Tremolo : ℤ
  TremoloWave : ℕ
  TremoloRate : ℕ
  TremoloPhase : ℕ
  tremoloOut : ℤ
  Vibrato : ℤ
  VibratoWave : ℕ
  VibratoRate : ℕ
  VibratoPhase : ℕ

/-- Pairing-mode constants, in declaration order of the Go `const` block. -/
def PairStereo : ℕ := 0

/-- Phase modulation pairing mode. -/
def PairPM : ℕ := 1

/-- Amplitude modulation pairing mode. -/
def PairAM : ℕ := 2

/-- Oscillator-sync pairing mode. -/
def PairSync : ℕ := 3

/-- One side of the mixing done per sample in `Mixer.Start`:
`mix := 0; mix += v * mvol >> 16` over the single channel pair
(`NumChans = 1`), then `clamp16(mix)`.  `v` is the value received from the
pair worker and `mvol` the channel's mixer volume, both `int32`. -/
def mixSide (v mvol : ℤ) : ℤ :=
  clamp16 (wrap32 (0 + sar16 (wrap32 (v * mvol))))

/-- The stereo sample pair emitted by one iteration of the `Mixer.Start`
loop: left and right mixes, each clamped; the emitted `int16` values are
`sw16` of these. -/
def mixStep (vL vR mvolL mvolR : ℤ) : ℤ × ℤ :=
  (mixSide vL mvolL, mixSide vR mvolR)

theorem wrap32_eq_self {x : ℤ} (h1 : -(2 ^ 31) ≤ x) (h2 : x < 2 ^ 31) :
    wrap32 x = x := by
  unfold wrap32
  omega

theorem clamp16_lower (a : ℤ) : -0x8000 ≤ clamp16 a := by
  unfold clamp16
  split <;> [omega; skip]
  split <;> omega

theorem clamp16_upper (a : ℤ) : clamp16 a ≤ 0x7fff := by
  unfold clamp16
  split <;> [omega; skip]
  split <;> omega

theorem sw16_eq_self {x : ℤ} (h1 : -(2 ^ 15) ≤ x) (h2 : x < 2 ^ 15) :
    sw16 x = x := by
  unfold sw16
  omega

/-- C3: every sample emitted by the mixer loop lies in the signed 16-bit
range `[-0x8000, 0x7fff]`.  The per-step mixed sum (here over the single
channel pair, `NumChans = 1`) is passed through `clamp16` before the
`int16` conversion, and that conversion (`sw16`) is the identity on the
clamped value, i.e. it never wraps — for every value coming out of a pair
worker and every mixer volume, hence for all channel states and all
waveform-generator outputs. -/
theorem mixStep_output_in_int16_range (vL vR mvolL mvolR : ℤ) :
    -0x8000 ≤ (mixStep vL vR mvolL mvolR).1 ∧
      (mixStep vL vR mvolL mvolR).1 ≤ 0x7fff ∧
      sw16 (mixStep vL vR mvolL mvolR).1 = (mixStep vL vR mvolL mvolR).1 ∧
      -0x8000 ≤ (mixStep vL vR mvolL mvolR).2 ∧
      (mixStep vL vR mvolL mvolR).2 ≤ 0x7fff ∧
      sw16 (mixStep vL vR mvolL mvolR).2 = (mixStep vL vR mvolL mvolR).2 := by
  have key : ∀ v mvol : ℤ, -0x8000 ≤ mixSide v mvol ∧ mixSide v mvol ≤ 0x7fff ∧
      sw16 (mixSide v mvol) = mixSide v mvol := by
    intro v mvol
    unfold mixSide
    have hl := clamp16_lower (wrap32 (0 + sar16 (wrap32 (v * mvol))))
    have hu := clamp16_upper (wrap32 (0 + sar16 (wrap32 (v * mvol))))
    exact ⟨hl, hu, sw16_eq_self (by omega) (by omega)⟩
  exact ⟨(key vL mvolL).1, (key vL mvolL).2.1, (key vL mvolL).2.2,
    (key vR mvolR).1, (key vR mvolR).2.1, (key vR mvolR).2.2⟩

/-- The `phase` closure of `Mixer.startPair`:
`c.Phase = (c.Phase + c.period) % c.Len`, with the `uint32` addition
wrapping modulo 2^32 before the reduction modulo `c.Len`.  (In Go,
`c.Len = 0` panics; theorems below carry `0 < Len` hypotheses.) -/
def phaseAdv (c : Channel) : Channel :=
  { c with Phase := (c.Phase + c.period) % 2 ^ 32 % c.Len }

/-- The dry sample of the `wave` closure of `Mixer.startPair`:
`int32(m.wave(c.Wave, phase)) * (c.Vol + c.tremoloOut) >> 16`.  The
collaborator `wf` stands for `m.wave`; its `int16` result is normalised
with `sw16`. -/
def dryOf (wf : ℕ → ℕ → ℤ) (c : Channel) (ph : ℕ) : ℤ :=
  sar16 (wrap32 (sw16 (wf c.Wave ph) * wrap32 (c.Vol + c.tremoloOut)))

/-- The `wave` closure of `Mixer.startPair`: rolling delay-filter update,
dry sample, history write, and the returned mix
`dry*c.DryLevel>>16 + c.delayAvg*c.WetLevel>>16`.  Returns the updated
channel and the returned `int32`. -/
def waveStep (wf : ℕ → ℕ → ℤ) (c : Channel) (ph : ℕ) : Channel × ℤ :=
  let delayStart := sub16 c.histHead (c.delay + 1)
  let delayEnd := sub16 delayStart c.FilterLen
  let a1 := wrap32 (c.delayAvg + Int.tdiv (c.hist delayStart) (c.FilterLen : ℤ))
  let a2 := wrap32 (a1 - Int.tdiv (c.hist delayEnd) (c.FilterLen : ℤ))
  let avg := clamp16 a2
  let dry := dryOf wf c ph
  let stored := wrap32 (dry + sar16 (wrap32 (avg * c.Feedback)))
  ({ c with delayAvg := avg,
            hist := fun j => if j = c.histHead then stored else c.hist j,
            histHead := (c.histHead + 1) % 2 ^ 16 },
   wrap32 (sar16 (wrap32 (dry * c.DryLevel)) + sar16 (wrap32 (avg * c.WetLevel))))

/-- Result of one iteration of a pair worker: the updated left and right
channels and the two `int32` values sent to the pair's queue. -/
structure PairOut where
  l : Channel
  r : Channel
  outL : ℤ
  outR : ℤ

/-- `case PairSync` of `Mixer.startPair`: advance both phases; if
`l.Phase + l.period >= l.Len` (a `uint32` comparison, evaluated on the
already-advanced left phase) reset the right phase to 0; compute the right
wave and send it on both slots. -/
def syncStep (wf : ℕ → ℕ → ℤ) (l r : Channel) : PairOut :=
  let l1 := phaseAdv l
  let r1 := phaseAdv r
  let r2 := if l1.Len ≤ (l1.Phase + l1.period) % 2 ^ 32 then
      { r1 with Phase := 0 } else r1
  let wr := waveStep wf r2 r2.Phase
  ⟨l1, wr.1, wr.2, wr.2⟩

/-- `case PairPM` of `Mixer.startPair`: advance the left phase only;
`lwave := uint32(wave(l, l.Phase)) + 0x8000` drives the right wave lookup
in place of the right channel's own phase; send the right result on both
slots. -/
def pmStep (wf : ℕ → ℕ → ℤ) (l r : Channel) : PairOut :=
  let l1 := phaseAdv l
  let wl := waveStep wf l1 l1.Phase
  let lwave := (toU32 wl.2 + 0x8000) % 2 ^ 32
  let wr := waveStep wf r lwave
  ⟨wl.1, wr.1, wr.2, wr.2⟩

/-- `case PairAM` of `Mixer.startPair`: advance both phases, compute both
waves, and send `lwave * rwave >> 16` on both slots. -/
def amStep (wf : ℕ → ℕ → ℤ) (l r : Channel) : PairOut :=
  let l1 := phaseAdv l
  let r1 := phaseAdv r
  let wl := waveStep wf l1 l1.Phase
  let wr := waveStep wf r1 r1.Phase
  let total := sar16 (wrap32 (wl.2 * wr.2))
  ⟨wl.1, wr.1, total, total⟩

/-- `default` case of `Mixer.startPair`: plain stereo, each channel advanced
and sent on its own slot. -/
def stereoStep (wf : ℕ → ℕ → ℤ) (l r : Channel) : PairOut :=
  let l1 := phaseAdv l
  let r1 := phaseAdv r
  let wl := waveStep wf l1 l1.Phase
  let wr := waveStep wf r1 r1.Phase
  ⟨wl.1, wr.1, wl.2, wr.2⟩

/-- One iteration of the `Mixer.startPair` loop, dispatching on the left
channel's pairing mode as the Go `switch` does. -/
def pairStep (wf : ℕ → ℕ → ℤ) (l r : Channel) : PairOut :=
  if l.PairMode = PairSync then syncStep wf l r
  else if l.PairMode = PairPM then pmStep wf l r
  else if l.PairMode = PairAM then amStep wf l r
  else stereoStep wf l r

theorem waveStep_fst_Phase (wf : ℕ → ℕ → ℤ) (c : Channel) (ph : ℕ) :
    (waveStep wf c ph).1.Phase = c.Phase := rfl

theorem waveStep_fst_Len (wf : ℕ → ℕ → ℤ) (c : Channel) (ph : ℕ) :
    (waveStep wf c ph).1.Len = c.Len := rfl

theorem phaseAdv_Phase_lt {c : Channel} (h : 0 < c.Len) :
    (phaseAdv c).Phase < c.Len :=
  Nat.mod_lt _ h

/-- C2: after every synthesis step of a pair worker each channel's phase
satisfies `0 ≤ phase < length` (the lower bound is inherent in the `ℕ`
encoding of `uint32`): wave lengths are untouched by the step, the left
channel and — in Stereo, AmplitudeModulation and Sync modes — the right
channel land strictly below their lengths via `(phase + period) mod length`
(in Sync mode the right phase may instead be reset to 0, also in range),
and in PhaseModulation mode, the one pairing mode that overrides the
canonical update, the right channel's phase is simply left unchanged, so
the invariant is preserved there.  `0 < Len` is required: the Go modulus
panics on a zero length. -/
theorem pairStep_phase_in_range (wf : ℕ → ℕ → ℤ) (l r : Channel)
    (hl : 0 < l.Len) (hr : 0 < r.Len) :
    (pairStep wf l r).l.Len = l.Len ∧
      (pairStep wf l r).r.Len = r.Len ∧
      (pairStep wf l r).l.Phase < l.Len ∧
      (l.PairMode = PairPM → (pairStep wf l r).r.Phase = r.Phase) ∧
      (l.PairMode ≠ PairPM → (pairStep wf l r).r.Phase < r.Len) := by
  by_cases h3 : l.PairMode = PairSync
  · have hne : l.PairMode ≠ PairPM := by rw [h3]; decide
    have he : pairStep wf l r = syncStep wf l r := by
      unfold pairStep; rw [if_pos h3]
    rw [he]
    refine ⟨rfl, ?_, phaseAdv_Phase_lt hl, fun hc => absurd hc hne, fun _ => ?_⟩
    · show (if (phaseAdv l).Len ≤ ((phaseAdv l).Phase + (phaseAdv l).period) % 2 ^ 32
          then { phaseAdv r with Phase := 0 } else phaseAdv r).Len = r.Len
      split <;> rfl
    · show (if (phaseAdv l).Len ≤ ((phaseAdv l).Phase + (phaseAdv l).period) % 2 ^ 32
          then { phaseAdv r with Phase := 0 } else phaseAdv r).Phase < r.Len
      split
      · exact hr
      · exact phaseAdv_Phase_lt hr
  · by_cases h1 : l.PairMode = PairPM
    · have he : pairStep wf l r = pmStep wf l r := by
        unfold pairStep; rw [if_neg h3, if_pos h1]
      rw [he]
      exact ⟨rfl, rfl, phaseAdv_Phase_lt hl, fun _ => rfl, fun hc => absurd h1 hc⟩
    · by_cases h2 : l.PairMode = PairAM
      · have he : pairStep wf l r = amStep wf l r := by
          unfold pairStep; rw [if_neg h3, if_neg h1, if_pos h2]
        rw [he]
        exact ⟨rfl, rfl, phaseAdv_Phase_lt hl, fun hc => absurd hc h1,
          fun _ => phaseAdv_Phase_lt hr⟩
      · have he : pairStep wf l r = stereoStep wf l r := by
          unfold pairStep; rw [if_neg h3, if_neg h1, if_neg h2]
        rw [he]
        exact ⟨rfl, rfl, phaseAdv_Phase_lt hl, fun hc => absurd hc h1,
          fun _ => phaseAdv_Phase_lt hr⟩

/-- Witness for C2 at a concrete state: a Sync-mode pair with lengths 10
and 7. -/
def chZero : Channel where
  Wave := 0
  PairMode := 0
  Note := 0
  Slide := 0
  Vol := 0
  MVol := 0
  Fade := 0
  Len := 0x10000
  Phase := 0
  period := 0
  DryLevel := 0
  WetLevel := 0
  Feedback := 0
  delay := 0
  FilterLen := 1
  hist := fun _ => 0
  histHead := 0
  delayAvg := 0
  Attack := 0
  Peak := 0
  Decay := 0
  Sustain := 0
  Release := 0
  EnvPos := 0
  NoteOn := false
  Tremolo := 0
  TremoloWave := 0
  TremoloRate := 0
  TremoloPhase := 0
  tremoloOut := 0
  Vibrato := 0
  VibratoWave := 0
  VibratoRate := 0
  VibratoPhase := 0

theorem pairStep_phase_in_range_witness :
    let l := { chZero with PairMode := PairSync, Len := 10, Phase := 4, period := 3 }
    let r := { chZero with Len := 7, Phase := 6, period := 2 }
    (pairStep (fun _ _ => 0) l r).l.Len = l.Len ∧
      (pairStep (fun _ _ => 0) l r).r.Len = r.Len ∧
      (pairStep (fun _ _ => 0) l r).l.Phase < l.Len ∧
      (l.PairMode = PairPM → (pairStep (fun _ _ => 0) l r).r.Phase = r.Phase) ∧
      (l.PairMode ≠ PairPM → (pairStep (fun _ _ => 0) l r).r.Phase < r.Len) :=
  pairStep_phase_in_range (fun _ _ => 0) _ _ (by decide) (by decide)

/-- The tick-timing state of the mixer: the `uint32` point counter `count`
and the point count `nextTick` at which the next tick fires. -/
structure SchedState where
  count : ℕ
  nextTick : ℕ

/-- The tick interval `60*m.srate/m.BPM/m.TickRate` as `Mixer.tick` computes
it: a `uint32` multiplication (wrapping modulo 2^32) followed by two
truncating `uint32` divisions. -/
def tickInterval (srate bpm tickRate : ℕ) : ℕ :=
  60 * srate % 2 ^ 32 / bpm / tickRate

/-- The effect of `Mixer.tick` on the timing state:
`m.nextTick = 60*m.srate/m.BPM/m.TickRate + m.count`. -/
def tickSched (srate bpm tickRate : ℕ) (s : SchedState) : SchedState :=
  { s with nextTick := (tickInterval srate bpm tickRate + s.count) % 2 ^ 32 }

/-- One iteration of the `Mixer.Start` loop, restricted to tick timing:
`if m.count == m.nextTick { m.tick() }` followed by `m.count++`. -/
def schedStep (srate bpm tickRate : ℕ) (s : SchedState) : SchedState :=
  let s1 := if s.count = s.nextTick then tickSched srate bpm tickRate s else s
  { s1 with count := (s1.count + 1) % 2 ^ 32 }

/-- The timing state after `n` iterations of the `Mixer.Start` loop from the
zero-initialised mixer (`count = nextTick = 0`). -/
def schedRun (srate bpm tickRate : ℕ) : ℕ → SchedState
  | 0 => ⟨0, 0⟩
  | n + 1 => schedStep srate bpm tickRate (schedRun srate bpm tickRate n)

theorem tickInterval_48k : tickInterval 48000 120 24 = 1000 := rfl

theorem tickInterval_lt (srate bpm tickRate : ℕ) :
    tickInterval srate bpm tickRate < 2 ^ 32 :=
  Nat.lt_of_le_of_lt (Nat.le_trans (Nat.div_le_self _ _) (Nat.div_le_self _ _))
    (Nat.mod_lt _ (by norm_num))

theorem schedRun_48k_inv : ∀ n : ℕ, n < 2 ^ 32 →
    (schedRun 48000 120 24 n).count = n ∧
      (schedRun 48000 120 24 n).nextTick = 1000 * ((n + 999) / 1000) % 2 ^ 32 := by
  intro n
  induction n with
  | zero => intro _; exact ⟨rfl, rfl⟩
  | succ n ih =>
    intro h
    obtain ⟨hc, hn⟩ := ih (by omega)
    unfold schedRun schedStep tickSched
    rw [tickInterval_48k]
    by_cases hf : (schedRun 48000 120 24 n).count = (schedRun 48000 120 24 n).nextTick
    · rw [if_pos hf]
      rw [hc, hn] at hf
      constructor
      · show ((schedRun 48000 120 24 n).count + 1) % 2 ^ 32 = n + 1
        rw [hc]; omega
      · show (1000 + (schedRun 48000 120 24 n).count) % 2 ^ 32 =
          1000 * ((n + 1 + 999) / 1000) % 2 ^ 32
        rw [hc]; omega
    · rw [if_neg hf]
      rw [hc, hn] at hf
      constructor
      · show ((schedRun 48000 120 24 n).count + 1) % 2 ^ 32 = n + 1
        rw [hc]; omega
      · show (schedRun 48000 120 24 n).nextTick = 1000 * ((n + 1 + 999) / 1000) % 2 ^ 32
        rw [hn]
        have hm : n % 1000 ≠ 0 := by omega
        have hq : (n + 999) / 1000 = (n + 1 + 999) / 1000 := by omega
        rw [hq]

/-- C1: on every invocation of `Mixer.tick` — which fires exactly when the
sample counter has reached `nextTick` — the new `nextTick` is exactly
`60*sampleRate/BPM/TickRate` samples past the previous one (`uint32`
difference; the product `60*sampleRate` is assumed not to overflow `uint32`,
which holds for every realistic sample rate, and BPM and TickRate are
nonzero since Go division by zero panics).  Moreover, in the end-to-end
scenario `sampleRate = 48000`, `BPM = 120`, `TickRate = 24`, a tick fires on
sample `n` of the mixer loop exactly when `n` is a multiple of 1000, i.e.
every 1000 output samples. -/
theorem tick_advances_nextTick_by_interval :
    (∀ (srate bpm tickRate : ℕ) (s : SchedState),
        60 * srate < 2 ^ 32 → 0 < bpm → 0 < tickRate → s.nextTick < 2 ^ 32 →
        s.count = s.nextTick →
        ((tickSched srate bpm tickRate s).nextTick + 2 ^ 32 - s.nextTick) % 2 ^ 32 =
          60 * srate / bpm / tickRate) ∧
      ∀ n : ℕ, n < 2 ^ 32 →
        ((schedRun 48000 120 24 n).count = (schedRun 48000 120 24 n).nextTick ↔
          n % 1000 = 0) := by
  constructor
  · intro srate bpm tickRate s hov _ _ hlt hfire
    have hI : tickInterval srate bpm tickRate = 60 * srate / bpm / tickRate := by
      unfold tickInterval; rw [Nat.mod_eq_of_lt hov]
    have hIlt : 60 * srate / bpm / tickRate < 2 ^ 32 :=
      hI ▸ tickInterval_lt srate bpm tickRate
    show ((tickInterval srate bpm tickRate + s.count) % 2 ^ 32 + 2 ^ 32 - s.nextTick)
        % 2 ^ 32 = 60 * srate / bpm / tickRate
    rw [hI, hfire]
    generalize 60 * srate / bpm / tickRate = I at hIlt ⊢
    omega
  · intro n h
    obtain ⟨hc, hn⟩ := schedRun_48k_inv n h
    rw [hc, hn]
    omega

/-- Witness for C1: the very first loop iteration fires a tick (the fresh
mixer has `count = nextTick = 0`) and schedules the next one 1000 samples
later at the default 48 kHz / 120 BPM / 24 ticks-per-beat configuration;
sample 1000 fires again. -/
theorem tick_advances_nextTick_by_interval_witness :
    ((tickSched 48000 120 24 ⟨0, 0⟩).nextTick + 2 ^ 32 - 0) % 2 ^ 32 =
        60 * 48000 / 120 / 24 ∧
      ((schedRun 48000 120 24 1000).count = (schedRun 48000 120 24 1000).nextTick ↔
        1000 % 1000 = 0) :=
  ⟨tick_advances_nextTick_by_interval.1 48000 120 24 ⟨0, 0⟩ (by norm_num)
      (by norm_num) (by norm_num) (by norm_num) rfl,
    tick_advances_nextTick_by_interval.2 1000 (by norm_num)⟩

/-- The envelope `switch` of `Mixer.tick`: the new value of `c.Vol`.  Cases
in source order: no envelope (`Release < 1`), note off (volume down by
`Release`, floored at 0 via Go's `max`), attack while `EnvPos <
Peak/Attack` (volume up by `Attack`, capped at `0x10000` via Go's `min`),
decay while `Vol > Sustain` (down by `Decay`, floored at 0), else sustain
(unchanged).  `Peak/Attack` is Go `int32` division, truncating toward zero
(`Int.tdiv`); Go panics when `Attack = 0`, whereas `Int.tdiv _ 0 = 0`
here. -/
def envVol (c : Channel) : ℤ :=
  if c.Release < 1 then c.Vol
  else if c.NoteOn = false then max (wrap32 (c.Vol - c.Release)) 0
  else if c.EnvPos < Int.tdiv c.Peak c.Attack then min (wrap32 (c.Vol + c.Attack)) 0x10000
  else if c.Sustain < c.Vol then max (wrap32 (c.Vol - c.Decay)) 0
  else c.Vol

/-- `func Note(note int32) float64`, modelled over ℝ:
`fnote := float64(note) / (1 << 16); return math.Pow(2, (fnote-69)/12.0) * 440`. -/
noncomputable def Note (note : ℤ) : ℝ :=
  (2 : ℝ) ^ (((note : ℝ) / 65536 - 69) / 12) * 440

/-- The pitch line of `Mixer.tick`:
`c.period = uint32(float64(c.Len/m.srate) * Note(...))`.  The `uint32`
division `c.Len/m.srate` truncates before the float conversion; the
float-to-`uint32` conversion truncates the (nonnegative) product. -/
noncomputable def periodOf (len srate : ℕ) (freq : ℝ) : ℕ :=
  (Int.toNat ⌊((len / srate : ℕ) : ℝ) * freq⌋) % 2 ^ 32

/-- The per-channel body of `Mixer.tick`, in source order: pitch slide,
mixer-volume fade (floored at 0), envelope, `EnvPos++`, tremolo LFO
advance and cached output, vibrato LFO advance, filter-width floor, and the
period recomputation from the slid note plus vibrato.  The collaborator
`wf` is `m.wave`; the `DelayNote`/`DelayTicks` request resolution (lines
191–201 of the source, two fields no claim touches) is omitted. -/
noncomputable def tickChannel (wf : ℕ → ℕ → ℤ) (srate : ℕ) (c : Channel) : Channel :=
  let note := wrap32 (c.Note + c.Slide)
  let tremPhase := (c.TremoloPhase + c.TremoloRate) % 2 ^ 32
  let tremOut := sar16 (wrap32 (sw16 (wf c.TremoloWave (tremPhase / 2 ^ 16)) * c.Tremolo))
  let vibPhase := (c.VibratoPhase + c.VibratoRate) % 2 ^ 32
  let vibOut := sar16 (wrap32 (sw16 (wf c.VibratoWave (vibPhase / 2 ^ 16)) * c.Vibrato))
  { c with Note := note,
           MVol := max (wrap32 (c.MVol + c.Fade)) 0,
           Vol := envVol c,
           EnvPos := wrap32 (c.EnvPos + 1),
           TremoloPhase := tremPhase,
           tremoloOut := tremOut,
           VibratoPhase := vibPhase,
           FilterLen := if c.FilterLen = 0 then 1 else c.FilterLen,
           period := periodOf c.Len srate (Note (wrap32 (note + vibOut))) }

theorem tickChannel_Vol (wf : ℕ → ℕ → ℤ) (srate : ℕ) (c : Channel) :
    (tickChannel wf srate c).Vol = envVol c := rfl

theorem tickChannel_Release (wf : ℕ → ℕ → ℤ) (srate : ℕ) (c : Channel) :
    (tickChannel wf srate c).Release = c.Release := rfl

theorem tickChannel_Attack (wf : ℕ → ℕ → ℤ) (srate : ℕ) (c : Channel) :
    (tickChannel wf srate c).Attack = c.Attack := rfl

theorem tickChannel_Decay (wf : ℕ → ℕ → ℤ) (srate : ℕ) (c : Channel) :
    (tickChannel wf srate c).Decay = c.Decay := rfl

/-- C5: after any tick, every channel's filter width is at least 1 — the
tick body maps a zero `FilterLen` to 1 and leaves any other value alone —
so the two divisors `int32(c.FilterLen)` used by the delay-filter step in
the worker's `wave` closure are nonzero for a post-tick channel. -/
theorem tick_forces_FilterLen_positive (wf : ℕ → ℕ → ℤ) (srate : ℕ) (c : Channel) :
    1 ≤ (tickChannel wf srate c).FilterLen ∧
      ((tickChannel wf srate c).FilterLen : ℤ) ≠ 0 := by
  have h : (tickChannel wf srate c).FilterLen =
      if c.FilterLen = 0 then 1 else c.FilterLen := rfl
  rw [h]
  split
  · exact ⟨le_refl 1, by norm_num⟩
  · rename_i hne
    exact ⟨Nat.one_le_iff_ne_zero.mpr hne, by exact_mod_cast hne⟩

theorem envVol_bounds {c : Channel}
    (hrel : 1 ≤ c.Release) (hrel2 : c.Release ≤ 2 ^ 31 - 1)
    (hatk : 1 ≤ c.Attack) (hatk2 : c.Attack ≤ 2 ^ 31 - 1 - 0x10000)
    (hdec : 0 ≤ c.Decay) (hdec2 : c.Decay ≤ 2 ^ 31 - 1)
    (h0 : 0 ≤ c.Vol) (h1 : c.Vol ≤ 0x10000) :
    0 ≤ envVol c ∧ envVol c ≤ 0x10000 := by
  unfold envVol
  split
  · exact ⟨h0, h1⟩
  split
  · rw [wrap32_eq_self (by omega) (by omega)]
    omega
  split
  · rw [wrap32_eq_self (by omega) (by omega)]
    omega
  split
  · rw [wrap32_eq_self (by omega) (by omega)]
    omega
  · exact ⟨h0, h1⟩

/-- C4 (amended): the envelope keeps the pre-effect volume inside
`[0, 0x10000]` across every sequence of ticks when an envelope is
configured (`Release ≥ 1`) *and* the attack and decay rates are sane:
`1 ≤ Attack ≤ 0x7ffeffff` and `0 ≤ Decay` (all rates being `int32` values,
hence at most `0x7fffffff`).  The extra conditions are forced: a negative
decay grows the volume past full scale (see the counterexample), a
negative attack can push it below zero, `Attack = 0` makes `Peak/Attack`
panic in Go, and an attack above `0x7ffeffff` overflows `Vol + Attack`.
Stated for any number of consecutive ticks; the rate fields are not
themselves changed by a tick, so the bound also survives any sequencer
interleaving that keeps the rates in these ranges and does not write `Vol`
directly (the single-step case `n = 1` is the per-tick statement, applicable
at every tick of such a sequence). -/
theorem env_volume_stays_bounded (wf : ℕ → ℕ → ℤ) (srate : ℕ) (c : Channel)
    (hrel : 1 ≤ c.Release) (hrel2 : c.Release ≤ 2 ^ 31 - 1)
    (hatk : 1 ≤ c.Attack) (hatk2 : c.Attack ≤ 2 ^ 31 - 1 - 0x10000)
    (hdec : 0 ≤ c.Decay) (hdec2 : c.Decay ≤ 2 ^ 31 - 1)
    (h0 : 0 ≤ c.Vol) (h1 : c.Vol ≤ 0x10000) :
    ∀ n : ℕ, 0 ≤ ((tickChannel wf srate)^[n] c).Vol ∧
      ((tickChannel wf srate)^[n] c).Vol ≤ 0x10000 := by
  intro n
  induction n generalizing c with
  | zero => exact ⟨h0, h1⟩
  | succ n ih =>
    rw [Function.iterate_succ_apply]
    have hb := envVol_bounds hrel hrel2 hatk hatk2 hdec hdec2 h0 h1
    exact ih (c := tickChannel wf srate c)
      (by rw [tickChannel_Release]; exact hrel) (by rw [tickChannel_Release]; exact hrel2)
      (by rw [tickChannel_Attack]; exact hatk) (by rw [tickChannel_Attack]; exact hatk2)
      (by rw [tickChannel_Decay]; exact hdec) (by rw [tickChannel_Decay]; exact hdec2)
      (by rw [tickChannel_Vol]; exact hb.1) (by rw [tickChannel_Vol]; exact hb.2)

/-- Witness for C4 (amended) at a concrete channel: full-scale volume, unit
release/attack rates, decaying by 0x1000 per tick toward a sustain of
0x8000, three ticks. -/
theorem env_volume_stays_bounded_witness :
    let c := { chZero with Vol := 0x10000, Release := 1, Attack := 1,
                           Decay := 0x1000, Sustain := 0x8000, NoteOn := true }
    0 ≤ ((tickChannel (fun _ _ => 0) 48000)^[3] c).Vol ∧
      ((tickChannel (fun _ _ => 0) 48000)^[3] c).Vol ≤ 0x10000 :=
  env_volume_stays_bounded (fun _ _ => 0) 48000 _
    (by decide) (by decide) (by decide) (by decide) (by decide) (by decide)
    (by decide) (by decide) 3

/-- The channel state refuting C4 as stated: an envelope is configured
(`Release = 1 ≥ 1`), the volume starts inside the claimed range at full
scale `0x10000`, and note-on holds with the attack phase over
(`EnvPos = 0 = Peak/Attack`) — but `Decay = -1`. -/
def envCex : Channel :=
  { chZero with Vol := 0x10000, Release := 1, NoteOn := true,
                Attack := 1, Peak := 0, Sustain := 0, Decay := -1 }

/-- Counterexample to C4 as stated: with an envelope configured
(`Release ≥ 1`) and the volume starting in range, a single tick in the
decay state with `Decay = -1` computes `Vol = max(0, 0x10000 - (-1)) =
0x10001 > 0x10000`, leaving the claimed range. -/
theorem env_volume_cex :
    envCex.Release = 1 ∧ 0 ≤ envCex.Vol ∧ envCex.Vol ≤ 0x10000 ∧
      (tickChannel (fun _ _ => 0) 48000 envCex).Vol = 0x10000 + 1 := by
  refine ⟨rfl, by decide, by decide, ?_⟩
  show envVol envCex = 0x10000 + 1
  decide

theorem phaseAdv_iter_period_zero {d : Channel} (hp : d.period = 0)
    (hlt : d.Phase < d.Len) (hlen : d.Len ≤ 2 ^ 32) :
    ∀ n : ℕ, (phaseAdv^[n] d).Phase = d.Phase ∧
      (phaseAdv^[n] d).period = 0 ∧ (phaseAdv^[n] d).Len = d.Len := by
  intro n
  induction n with
  | zero => exact ⟨rfl, hp, rfl⟩
  | succ n ih =>
    obtain ⟨ih1, ih2, ih3⟩ := ih
    rw [Function.iterate_succ_apply']
    refine ⟨?_, ih2, ih3⟩
    show ((phaseAdv^[n] d).Phase + (phaseAdv^[n] d).period) % 2 ^ 32 %
        (phaseAdv^[n] d).Len = d.Phase
    rw [ih1, ih2, ih3, Nat.add_zero,
      show d.Phase % 2 ^ 32 = d.Phase from Nat.mod_eq_of_lt (by omega),
      Nat.mod_eq_of_lt hlt]

/-- C10: the pitch line of `Mixer.tick` divides `c.Len` by the sample rate
in `uint32` arithmetic *before* the float conversion and the multiplication
by the note frequency, so every channel whose wave length is strictly below
the sample rate gets period exactly 0 on every tick, and from any in-range
phase that channel's phase is unchanged by every subsequent synthesis
step. -/
theorem len_below_srate_gives_period_zero (wf : ℕ → ℕ → ℤ) (srate : ℕ)
    (c : Channel) (hlen : c.Len < srate) (hsr : srate ≤ 2 ^ 32) :
    (tickChannel wf srate c).period = 0 ∧
      (c.Phase < c.Len →
        ∀ n : ℕ, (phaseAdv^[n] (tickChannel wf srate c)).Phase = c.Phase) := by
  have hper : (tickChannel wf srate c).period = 0 := by
    show periodOf c.Len srate _ = 0
    unfold periodOf
    rw [Nat.div_eq_of_lt hlen]
    norm_num
  refine ⟨hper, fun hph n => ?_⟩
  have hC : (tickChannel wf srate c).Phase = c.Phase := rfl
  have hL : (tickChannel wf srate c).Len = c.Len := rfl
  have := (phaseAdv_iter_period_zero hper (by rw [hC, hL]; exact hph)
    (by rw [hL]; omega) n).1
  rw [this, hC]

/-- Witness for C10: a channel with wave length 5 under sample rate 10 —
after a tick the period is 0 and four synthesis steps leave the phase at
3. -/
theorem len_below_srate_gives_period_zero_witness :
    (tickChannel (fun _ _ => 0) 10 { chZero with Len := 5, Phase := 3 }).period = 0 ∧
      ({ chZero with Len := 5, Phase := 3 } : Channel).Phase <
        ({ chZero with Len := 5, Phase := 3 } : Channel).Len ∧
      (phaseAdv^[4] (tickChannel (fun _ _ => 0) 10
        { chZero with Len := 5, Phase := 3 })).Phase = 3 := by
  have h := len_below_srate_gives_period_zero (fun _ _ => 0) 10
    { chZero with Len := 5, Phase := 3 } (by decide) (by norm_num)
  exact ⟨h.1, by decide, h.2 (by decide) 4⟩

/-- C6: the note-to-frequency conversion is the equal-temperament formula
`freq = 440 * 2^((note/65536 - 69)/12)` for every fixed-point note value
(the float64 arithmetic of the Go source is modelled over ℝ), and at the
middle reference note `60<<16` (no fine tune) the frequency is within
0.01 Hz of 261.63 Hz. -/
theorem Note_equal_temperament :
    (∀ n : ℤ, Note n = 440 * (2 : ℝ) ^ (((n : ℝ) / 65536 - 69) / 12)) ∧
      |Note (60 * 65536) - 261.63| < 0.01 := by
  constructor
  · intro n
    unfold Note
    ring
  · have h2pos : (0 : ℝ) < 2 := by norm_num
    have htpos : 0 < (2 : ℝ) ^ (1 / 4 : ℝ) := Real.rpow_pos_of_pos h2pos _
    have ht4 : ((2 : ℝ) ^ (1 / 4 : ℝ)) ^ (4 : ℕ) = 2 := by
      rw [← Real.rpow_natCast ((2 : ℝ) ^ (1 / 4 : ℝ)) 4,
        ← Real.rpow_mul (le_of_lt h2pos),
        show (1 / 4 : ℝ) * ((4 : ℕ) : ℝ) = 1 by norm_num, Real.rpow_one]
    have hlow : (1.18919 : ℝ) < (2 : ℝ) ^ (1 / 4 : ℝ) := by
      apply lt_of_pow_lt_pow_left₀ 4 (le_of_lt htpos)
      rw [ht4]; norm_num
    have hhigh : (2 : ℝ) ^ (1 / 4 : ℝ) < 1.18926 := by
      apply lt_of_pow_lt_pow_left₀ 4 (by norm_num)
      rw [ht4]; norm_num
    have hval : Note (60 * 65536) = (2 : ℝ) ^ (1 / 4 : ℝ) / 2 * 440 := by
      unfold Note
      rw [show (((60 * 65536 : ℤ) : ℝ) / 65536 - 69) / 12 = 1 / 4 + -1 by norm_num,
        Real.rpow_add h2pos, Real.rpow_neg_one]
      ring
    rw [hval, abs_lt]
    constructor <;> linarith

/-- C7 (amended): in Sync mode, whenever the left channel's phase after the
step plus its period reaches or exceeds the left length — and that sum does
not wrap `uint32` (the comparison is a `uint32` one, so without this proviso
a period close to 2^32 can make the sum wrap below the length and the reset
is skipped; see the counterexample) — the right channel's phase is exactly 0
immediately after that step, the reset happening before the right sample is
computed (the sample is the right channel's wave at phase 0), and that right
result is emitted on both output slots. -/
theorem sync_resets_right_phase (wf : ℕ → ℕ → ℤ) (l r : Channel)
    (hov : (phaseAdv l).Phase + l.period < 2 ^ 32)
    (hge : l.Len ≤ (phaseAdv l).Phase + l.period) :
    (syncStep wf l r).r.Phase = 0 ∧
      (syncStep wf l r).outL = (syncStep wf l r).outR ∧
      (syncStep wf l r).outL = (waveStep wf { phaseAdv r with Phase := 0 } 0).2 := by
  have hcond : (phaseAdv l).Len ≤ ((phaseAdv l).Phase + (phaseAdv l).period) % 2 ^ 32 := by
    have hper : (phaseAdv l).period = l.period := rfl
    have hlen : (phaseAdv l).Len = l.Len := rfl
    rw [hper, hlen, Nat.mod_eq_of_lt hov]
    exact hge
  have he : syncStep wf l r =
      ⟨phaseAdv l, (waveStep wf { phaseAdv r with Phase := 0 } 0).1,
        (waveStep wf { phaseAdv r with Phase := 0 } 0).2,
        (waveStep wf { phaseAdv r with Phase := 0 } 0).2⟩ := by
    simp only [syncStep]
    rw [if_pos hcond]
  rw [he]
  exact ⟨rfl, rfl, rfl⟩

/-- Witness for C7 (amended): left length 10, period 10, starting phase 0 —
the advanced phase 0 plus period 10 reaches the length, so the right phase
(previously 3, period 1) is 0 after the step. -/
theorem sync_resets_right_phase_witness :
    let l := { chZero with PairMode := PairSync, Len := 10, Phase := 0, period := 10 }
    let r := { chZero with Len := 7, Phase := 3, period := 1 }
    (syncStep (fun _ _ => 0) l r).r.Phase = 0 ∧
      (syncStep (fun _ _ => 0) l r).outL = (syncStep (fun _ _ => 0) l r).outR ∧
      (syncStep (fun _ _ => 0) l r).outL =
        (waveStep (fun _ _ => 0) { phaseAdv r with Phase := 0 } 0).2 :=
  sync_resets_right_phase (fun _ _ => 0) _ _ (by decide) (by decide)

/-- The left channel refuting C7 as stated: length `2^32 - 2`, period
`2^32 - 1`, in-range phase 2. -/
def syncCexL : Channel :=
  { chZero with PairMode := PairSync, Len := 2 ^ 32 - 2, Phase := 2, period := 2 ^ 32 - 1 }

/-- The right channel for the C7 counterexample: in-range phase 1 that is
not reset. -/
def syncCexR : Channel :=
  { chZero with Len := 10, Phase := 1, period := 0 }

/-- Counterexample to C7 as stated ("for all configured lengths and
periods"): the left channel's advanced phase (1) plus its period (2^32 - 1)
reaches 2^32, far beyond its length 2^32 - 2, yet the `uint32` sum wraps to
0, the code's comparison `0 >= l.Len` fails, and the right channel's phase
after the step is 1, not 0. -/
theorem sync_resets_right_phase_cex :
    syncCexL.Len ≤ (phaseAdv syncCexL).Phase + syncCexL.period ∧
      (syncStep (fun _ _ => 0) syncCexL syncCexR).r.Phase = 1 := by
  constructor
  · decide
  · decide

/-- C8: in PhaseModulation mode the phase input driving the right channel's
wave lookup is `uint32(lwave) + 0x8000` — the left channel's filtered
output (the full dry+wet return of the `wave` closure), reinterpreted as
`uint32` and offset by half-scale — not the right channel's own accumulated
phase, which is left entirely untouched by the step; the right channel's
result is emitted on both output slots. -/
theorem pm_right_phase_input_is_left_output (wf : ℕ → ℕ → ℤ) (l r : Channel) :
    (pmStep wf l r).outL = (pmStep wf l r).outR ∧
      (pmStep wf l r).outL =
        (waveStep wf r
          ((toU32 (waveStep wf (phaseAdv l) (phaseAdv l).Phase).2 + 0x8000) % 2 ^ 32)).2 ∧
      (pmStep wf l r).r.Phase = r.Phase :=
  ⟨rfl, rfl, rfl⟩

theorem clamp16_eq_self {a : ℤ} (h1 : -0x8000 ≤ a) (h2 : a ≤ 0x7fff) :
    clamp16 a = a := by
  unfold clamp16
  split
  · omega
  · split
    · omega
    · rfl

theorem sub16_sub16_one (a : ℕ) : sub16 (sub16 a 1) 1 = sub16 a 2 := by
  unfold sub16
  omega

theorem sar16_wrap32_small (x : ℤ) :
    -(2 ^ 15) ≤ sar16 (wrap32 x) ∧ sar16 (wrap32 x) < 2 ^ 15 := by
  unfold sar16 wrap32
  omega

/-- C9 (amended): for a channel with filter width 1 and delay 0 (Stereo
mode routes each channel's sample straight through this delay-filter step),
the wet (filtered) value of a step is the sample *stored on the previous
step* — a one-sample delay — not the instantaneous dry sample: the rolling
average update adds `hist[histHead-1]` and subtracts `hist[histHead-2]`,
which equals the current rolling average when the state is consistent, so
the new average is exactly `hist[histHead-1]`.  The step's output is the
dry sample scaled by the dry level plus that previous stored sample scaled
by the wet level; it degenerates to the dry sample scaled *only* by the dry
level exactly when the wet level is 0 (the per-channel default), not in
general (see the counterexample). -/
theorem stereo_filter1_delay0_output (wf : ℕ → ℕ → ℤ) (c : Channel) (ph : ℕ)
    (hdel : c.delay = 0) (hfl : c.FilterLen = 1)
    (hp1 : -0x8000 ≤ c.hist (sub16 c.histHead 1))
    (hp2 : c.hist (sub16 c.histHead 1) ≤ 0x7fff)
    (havg : c.delayAvg = c.hist (sub16 c.histHead 2))
    (ha1 : -0x8000 ≤ c.delayAvg) (ha2 : c.delayAvg ≤ 0x7fff) :
    (waveStep wf c ph).1.delayAvg = c.hist (sub16 c.histHead 1) ∧
      (waveStep wf c ph).2 =
        wrap32 (sar16 (wrap32 (dryOf wf c ph * c.DryLevel)) +
          sar16 (wrap32 (c.hist (sub16 c.histHead 1) * c.WetLevel))) ∧
      (c.WetLevel = 0 →
        (waveStep wf c ph).2 = sar16 (wrap32 (dryOf wf c ph * c.DryLevel))) := by
  have havgstep :
      clamp16 (wrap32 (wrap32 (c.delayAvg +
          Int.tdiv (c.hist (sub16 c.histHead (c.delay + 1))) (c.FilterLen : ℤ)) -
        Int.tdiv (c.hist (sub16 (sub16 c.histHead (c.delay + 1)) c.FilterLen))
          (c.FilterLen : ℤ))) = c.hist (sub16 c.histHead 1) := by
    rw [hdel, hfl]
    norm_num [Int.tdiv_one]
    rw [sub16_sub16_one, ← havg,
      show wrap32 (c.delayAvg + c.hist (sub16 c.histHead 1)) =
          c.delayAvg + c.hist (sub16 c.histHead 1) from
        wrap32_eq_self (by omega) (by omega),
      show c.delayAvg + c.hist (sub16 c.histHead 1) - c.delayAvg =
        c.hist (sub16 c.histHead 1) by ring,
      show wrap32 (c.hist (sub16 c.histHead 1)) = c.hist (sub16 c.histHead 1) from
        wrap32_eq_self (by omega) (by omega)]
    exact clamp16_eq_self hp1 hp2
  refine ⟨havgstep, ?_, ?_⟩
  · show wrap32 (sar16 (wrap32 (dryOf wf c ph * c.DryLevel)) +
        sar16 (wrap32 (clamp16 (wrap32 (wrap32 (c.delayAvg +
            Int.tdiv (c.hist (sub16 c.histHead (c.delay + 1))) (c.FilterLen : ℤ)) -
          Int.tdiv (c.hist (sub16 (sub16 c.histHead (c.delay + 1)) c.FilterLen))
            (c.FilterLen : ℤ))) * c.WetLevel))) = _
    rw [havgstep]
  · intro hwet
    show wrap32 (sar16 (wrap32 (dryOf wf c ph * c.DryLevel)) +
        sar16 (wrap32 (clamp16 (wrap32 (wrap32 (c.delayAvg +
            Int.tdiv (c.hist (sub16 c.histHead (c.delay + 1))) (c.FilterLen : ℤ)) -
          Int.tdiv (c.hist (sub16 (sub16 c.histHead (c.delay + 1)) c.FilterLen))
            (c.FilterLen : ℤ))) * c.WetLevel))) = _
    rw [havgstep, hwet, mul_zero]
    have hs := sar16_wrap32_small (dryOf wf c ph * c.DryLevel)
    rw [show wrap32 (0 : ℤ) = 0 by decide, show sar16 (0 : ℤ) = 0 by decide,
      add_zero, wrap32_eq_self (by omega) (by omega)]

/-- The concrete state for the C9 witness: delay 0, filter width 1, history
head 2, previous stored sample `hist[1] = 50`, consistent rolling average
`delayAvg = hist[0] = 0`, full dry and wet levels. -/
def stereoW : Channel :=
  { chZero with delay := 0, FilterLen := 1, histHead := 2,
                hist := fun j => if j = 1 then 50 else 0, delayAvg := 0,
                DryLevel := 0x10000, WetLevel := 0x10000 }

/-- Witness for C9 (amended) at `stereoW`: the new rolling average is the
previous stored sample 50 and the output decomposes as stated. -/
theorem stereo_filter1_delay0_output_witness :
    (waveStep (fun _ _ => 0) stereoW 0).1.delayAvg =
        stereoW.hist (sub16 stereoW.histHead 1) ∧
      (waveStep (fun _ _ => 0) stereoW 0).2 =
        wrap32 (sar16 (wrap32 (dryOf (fun _ _ => 0) stereoW 0 * stereoW.DryLevel)) +
          sar16 (wrap32 (stereoW.hist (sub16 stereoW.histHead 1) * stereoW.WetLevel))) ∧
      (stereoW.WetLevel = 0 →
        (waveStep (fun _ _ => 0) stereoW 0).2 =
          sar16 (wrap32 (dryOf (fun _ _ => 0) stereoW 0 * stereoW.DryLevel))) :=
  stereo_filter1_delay0_output (fun _ _ => 0) stereoW 0 rfl rfl
    (by decide) (by decide) (by decide) (by decide) (by decide)

/-- The concrete state refuting C9 as stated: delay 0, filter width 1,
silent dry signal (`Vol = 0`), previous stored sample 100, full dry and
wet levels. -/
def stereoCex : Channel :=
  { chZero with delay := 0, FilterLen := 1, histHead := 2,
                hist := fun j => if j = 1 then 100 else 0, delayAvg := 0,
                DryLevel := 0x10000, WetLevel := 0x10000 }

/-- Counterexample to C9 as stated: at `stereoCex` (filter width 1, delay
0) the delay-filter step outputs 100 — the previous stored sample passed
through the wet path — while the instantaneous dry sample scaled by the dry
level is 0, so the output does not equal the dry sample scaled only by the
dry level. -/
theorem stereo_filter1_delay0_output_cex :
    stereoCex.delay = 0 ∧ stereoCex.FilterLen = 1 ∧
      (waveStep (fun _ _ => 0) stereoCex 0).2 = 100 ∧
      sar16 (wrap32 (dryOf (fun _ _ => 0) stereoCex 0 * stereoCex.DryLevel)) = 0 := by
  exact ⟨rfl, rfl, by decide, by decide⟩

end Fakechip
